import Mathlib

/-!
Verification of the request-dispatch pipeline of `vscode-restclient`
(file `src/utils/httpClient.ts` of the repository, given as
`src/src/models/httpResponse.ts`), as a shallow embedding in Lean.

Conventions of the embedding:
* JavaScript strings are Lean `String`s; raw byte buffers are `List Nat`
  (one entry per byte).
* A JavaScript plain object used as a header mapping is an association
  list `List (String × String)` in insertion order with distinct keys;
  assignment to an existing key overwrites in place (`objSet`).
* `undefined` is `Option.none`; a thrown exception is modelled by an
  `Option`-valued result being `none`.
* String helpers (`split`, `toLowerCase`, `join`) are re-implemented on
  `List Char` structurally so every definition evaluates by `rfl`/`decide`.
-/

namespace RestClient

/-- A JavaScript object used as a string-keyed header mapping:
association list in insertion order. -/
abbrev HeaderMap := List (String × String)

/-- `String.prototype.toLowerCase` (ASCII is all the code relies on). -/
def jsToLower (s : String) : String := String.mk (s.data.map Char.toLower)

/-- JavaScript `str.split(sep)` for a one-character separator, on char
lists: `"a:b:c" ↦ ["a","b","c"]`, `"a:" ↦ ["a",""]`, `"" ↦ [""]`. -/
def chSplit (sep : Char) : List Char → List (List Char)
  | [] => [[]]
  | c :: rest =>
    if c = sep then
      [] :: chSplit sep rest
    else
      match chSplit sep rest with
      | s :: ss => (c :: s) :: ss
      | [] => [[c]]

/-- JavaScript `str.split(/\s+/)`: separators are maximal whitespace runs;
a leading (trailing) run contributes a leading (trailing) empty token.
First argument: are we currently inside a whitespace run? -/
def splitWsGo : Bool → List Char → List Char → List String
  | true, _, [] => [""]
  | false, cur, [] => [String.mk cur.reverse]
  | true, cur, c :: rest =>
    if c.isWhitespace then splitWsGo true cur rest
    else splitWsGo false [c] rest
  | false, cur, c :: rest =>
    if c.isWhitespace then String.mk cur.reverse :: splitWsGo true [] rest
    else splitWsGo false (c :: cur) rest

/-- JavaScript `str.split(/\s+/)`. -/
def splitWs (s : String) : List String := splitWsGo false [] s.data

/-- JavaScript `arr.join(' ')`. -/
def joinSp : List String → String
  | [] => ""
  | [x] => x
  | x :: xs => x ++ " " ++ joinSp xs

/-- Assignment `obj[k] = v` on a JavaScript object viewed as an ordered
association list: overwrite in place when the key exists, else append. -/
def objSet (l : HeaderMap) (k v : String) : HeaderMap :=
  if l.any (fun p => p.1 == k) then
    l.map (fun p => if p.1 == k then (k, v) else p)
  else
    l ++ [(k, v)]

/-- Modelled from the spec: `getHeader` (from `utils/misc`, not among the
provided sources) looks a header up by name case-insensitively and
returns its value (the spec: "No-op if no `Authorization` header is
present (case-insensitive lookup)"). -/
def getHeader (hs : HeaderMap) (name : String) : Option String :=
  (hs.find? (fun p => jsToLower p.1 == jsToLower name)).map (·.2)

/-- Modelled from the spec: `removeHeader` (from `utils/misc`, not among
the provided sources) deletes the header with the given name,
case-insensitively ("header removed"). -/
def removeHeader (hs : HeaderMap) (name : String) : HeaderMap :=
  hs.filter (fun p => !(jsToLower p.1 == jsToLower name))

/-- Tag for a hook registered by the auth dispatch; the hook bodies
(`digest`, `awsSignature`, `awsCognito`) are external collaborators and
only their identity and arguments matter here. -/
inductive HookTag where
  | digestHook (user pass : String)
  | awsSignatureHook (auth : String)
  | awsCognitoHook (auth : String)
  deriving DecidableEq, Repr

/-- The fields of the `got` options object that the auth dispatch of
`prepareOptions` touches. `headersRef` is the index, in the heap of
header objects, of the object `options.headers` points at. -/
structure OptionsModel where
  headersRef : Nat
  username : Option String
  password : Option String
  beforeRequestHooks : List HookTag
  afterResponseHooks : List HookTag
  deriving DecidableEq, Repr

/-- Heap of header objects: `options.headers` aliases one of them by
index, so mutation through the alias is explicit. -/
abbrev HeaderHeap := List HeaderMap

/-- `removeHeader(options.headers, 'Authorization')`: mutate the header
object `options.headers` refers to, in place. -/
def heapRemoveAuth (heap : HeaderHeap) (r : Nat) : HeaderHeap :=
  heap.set r (removeHeader (heap.getD r []) "Authorization")

/-- The authorization dispatch of `HttpClient.prepareOptions`
(source lines 198-224): tokenize the `Authorization` value on
whitespace into `scheme, user, ...args`; `basic` with extra tokens sets
username/password (password = args rejoined with single spaces);
`digest`/`aws`/`cognito` with extra tokens register hooks; `basic` with
exactly two tokens whose user token contains a colon splits the user
token on colons.  All header removal goes through `options.headersRef`.
`none` models the `TypeError` thrown when `user` is `undefined` and
`user.includes(':')` is evaluated (a one-token `basic` value). -/
def applyAuth (heap : HeaderHeap) (opts : OptionsModel) :
    Option (HeaderHeap × OptionsModel) :=
  match getHeader (heap.getD opts.headersRef []) "Authorization" with
  | none => some (heap, opts)
  | some authorization =>
    if authorization = "" then some (heap, opts)
    else match splitWs authorization with
    | [] => none
    | [scheme] =>
      if jsToLower scheme == "basic" then none
      else some (heap, opts)
    | scheme :: user :: args =>
      if args.length > 0 then
        if jsToLower scheme == "basic" then
          some (heapRemoveAuth heap opts.headersRef,
                { opts with username := some user, password := some (joinSp args) })
        else if jsToLower scheme == "digest" then
          some (heapRemoveAuth heap opts.headersRef,
                { opts with afterResponseHooks :=
                    opts.afterResponseHooks
                      ++ [HookTag.digestHook user (joinSp args)] })
        else if jsToLower scheme == "aws" then
          some (heapRemoveAuth heap opts.headersRef,
                { opts with beforeRequestHooks :=
                    opts.beforeRequestHooks ++ [HookTag.awsSignatureHook authorization] })
        else if jsToLower scheme == "cognito" then
          some (heapRemoveAuth heap opts.headersRef,
                { opts with beforeRequestHooks :=
                    opts.beforeRequestHooks ++ [HookTag.awsCognitoHook authorization] })
        else
          some (heap, opts)
      else if jsToLower scheme == "basic" && user.data.contains ':' then
        some (heapRemoveAuth heap opts.headersRef,
              { opts with
                  username := some (String.mk ((chSplit ':' user.data).headD [])),
                  password := ((chSplit ':' user.data).get? 1).map String.mk })
      else
        some (heap, opts)

/-- The header-relevant part of `HttpClient.prepareOptions`: a shallow
clone of the request's header mapping (`Object.assign({}, ...)`, heap
index 1; the original object is heap index 0) becomes `options.headers`,
then the authorization dispatch runs against the clone. -/
def prepareOptionsModel (origHeaders : HeaderMap) :
    Option (HeaderHeap × OptionsModel) :=
  applyAuth [origHeaders, origHeaders]
    { headersRef := 1, username := none, password := none,
      beforeRequestHooks := [], afterResponseHooks := [] }

/-- UTF-8 decoding of a byte list (1- to 3-byte sequences; this models
the `iconv-lite` utf8 decoder / `Buffer.toString()` on the byte values
the claims exercise). Truncated sequences at end of input are dropped,
continuation bytes contribute their low six bits. -/
def utf8Decode : List Nat → List Char
  | [] => []
  | b :: bs =>
    if b < 0x80 then Char.ofNat b :: utf8Decode bs
    else
      match bs with
      | [] => []
      | b2 :: rest =>
        if b < 0xE0 then
          Char.ofNat ((b % 32) * 64 + b2 % 64) :: utf8Decode rest
        else
          match rest with
          | [] => []
          | b3 :: rest2 =>
            Char.ofNat (((b % 16) * 64 + b2 % 64) * 64 + b3 % 64) :: utf8Decode rest2

/-- The utf8 decoder as a `String`-producing chunk decoder. -/
def utf8DecodeStr (chunk : List Nat) : String := String.mk (utf8Decode chunk)

/-- Is this character an ASCII hexadecimal digit? -/
def isHexDigit (c : Char) : Bool :=
  (('0' ≤ c && c ≤ '9') || ('a' ≤ c && c ≤ 'f') || ('A' ≤ c && c ≤ 'F'))

/-- Numeric value of an ASCII hexadecimal digit. -/
def hexVal (c : Char) : Nat :=
  if '0' ≤ c && c ≤ '9' then c.toNat - '0'.toNat
  else if 'a' ≤ c && c ≤ 'f' then c.toNat - 'a'.toNat + 10
  else c.toNat - 'A'.toNat + 10

/-- Lookahead after a backslash: does `uXXXX` (the `u` case-insensitive,
per the `/gi` regex flags) follow?  Returns the code point and the
remaining input on a match. -/
def matchEscape : List Char → Option (Nat × List Char)
  | u :: a :: b :: e :: d :: rest2 =>
    if (u = 'u' || u = 'U') && isHexDigit a && isHexDigit b
        && isHexDigit e && isHexDigit d then
      some (((hexVal a * 16 + hexVal b) * 16 + hexVal e) * 16 + hexVal d, rest2)
    else none
  | _ => none

theorem matchEscape_length {l : List Char} {n : Nat} {r : List Char}
    (h : matchEscape l = some (n, r)) : r.length + 5 = l.length := by
  match l with
  | [] | [_] | [_, _] | [_, _, _] | [_, _, _, _] => simp [matchEscape] at h
  | u :: a :: b :: e :: d :: rest2 =>
    simp only [matchEscape] at h
    split at h
    · cases h
      simp
    · cases h

/-- Replacement text for one matched escape: the denoted character,
except that a decoded `"` is re-escaped to `\"`. -/
def escOut (n : Nat) : List Char :=
  if Char.ofNat n = '"' then ['\\', '"'] else [Char.ofNat n]

/-- `HttpClient.decodeEscapedUnicodeCharacters` (source lines 251-256):
replace every `\uXXXX` escape with the character it denotes (a decoded
`"` becomes `\"`); a backslash not starting a full escape is copied. -/
def decodeEscAux : List Char → List Char
  | [] => []
  | c :: rest =>
    if c = '\\' then
      match h : matchEscape rest with
      | some p => escOut p.1 ++ decodeEscAux p.2
      | none => c :: decodeEscAux rest
    else c :: decodeEscAux rest
  termination_by l => l.length
  decreasing_by
    · have hlen := matchEscape_length h
      simp at hlen ⊢
      omega
    · simp
    · simp

/-- String form of `decodeEscapedUnicodeCharacters`. -/
def decodeEscapedUnicodeCharacters (body : String) : String :=
  String.mk (decodeEscAux body.data)

/-- The mutable state the `data` handler of `HttpClient.send` touches:
the closure counter `bodySize` and the `body`, `bodyBuffer` and
`bodySizeInBytes` fields of the exposed `HttpResponse`. -/
structure SendState where
  bodySize : Nat
  httpBody : String
  httpBodyBuffer : List Nat
  httpBodySizeInBytes : Nat
  deriving DecidableEq, Repr

/-- One `data` event of `HttpClient.send` (source lines 127-136):
`bodySize += chunk.length`; the chunk is decoded with the selected
charset decoder `dec` (optionally post-processed by the unicode
unescape); `httpResponse.body += bodyString`;
`httpResponse.bodyBuffer = Buffer.concat([bodyBuffer, chunk])` where
`bodyBuffer` is the closure-captured local (`localBodyBuffer` here,
never reassigned by the handler);
`httpResponse.bodySizeInBytes = bodySize`. -/
def dataStep (dec : List Nat → String) (unescape : Bool)
    (localBodyBuffer : List Nat) (st : SendState) (chunk : List Nat) : SendState :=
  let bodySize := st.bodySize + chunk.length
  let bodyString := dec chunk
  let bodyString :=
    if unescape then decodeEscapedUnicodeCharacters bodyString else bodyString
  { bodySize := bodySize,
    httpBody := st.httpBody ++ bodyString,
    httpBodyBuffer := localBodyBuffer ++ chunk,
    httpBodySizeInBytes := bodySize }

/-- State right after the `response` event constructed the
`HttpResponse`: `bodySize = 0`, empty body, `bodyBuffer = Buffer.alloc(0)`,
`bodySizeInBytes = bodySize`. -/
def initSendState : SendState :=
  { bodySize := 0, httpBody := "", httpBodyBuffer := [],
    httpBodySizeInBytes := 0 }

/-- Processing a sequence of `data` events in arrival order.  The local
`bodyBuffer` captured by the handler stays `Buffer.alloc(0)` (it is
never reassigned in `send`), hence the `[]` passed to every step. -/
def processChunks (dec : List Nat → String) (unescape : Bool)
    (chunks : List (List Nat)) : SendState :=
  chunks.foldl (dataStep dec unescape []) initSendState

/-- The header-size computation of the `response` handler (source lines
84-87): `rawHeaders` is the flat name/value string list of node, one
string per entry; node decodes raw headers as latin1, so a string's
length equals its byte length and each entry is modelled by its byte
list.  `headersSize` is the sum of the entry lengths plus
`rawHeaders.length / 2` (the division is exact: the list alternates
names and values). -/
def headersSizeOf (rawHeaders : List (List Nat)) : Nat :=
  (rawHeaders.map List.length).sum + rawHeaders.length / 2

/-- The flat raw-header list of node for a list of (name, value) header
pairs. -/
def flattenPairs (hs : List (List Nat × List Nat)) : List (List Nat) :=
  hs.foldr (fun p acc => p.1 :: p.2 :: acc) []

/-- The `headersDic` built by `HttpClient.normalizeHeaderNames` (source
lines 342-348): fold the raw header names left to right, recording
`lowercased name ↦ name` only when the lower-cased key is not present
yet (first-seen raw name wins). -/
def buildDic (rawHeaders : List String) : List (String × String) :=
  rawHeaders.foldl
    (fun prev cur =>
      if prev.any (fun p => p.1 == jsToLower cur) then prev
      else prev ++ [(jsToLower cur, cur)])
    []

/-- JavaScript property read `dic[k]` on the association list. -/
def dicGet (dic : List (String × String)) (k : String) : Option String :=
  (dic.find? (fun p => p.1 == k)).map (·.2)

/-- `headersDic[header] || header` (source line 351).  JavaScript `||`
falls back on the empty string too, hence the inner test. -/
def adjustName (rawHeaders : List String) (k : String) : String :=
  match dicGet (buildDic rawHeaders) k with
  | some s => if s = "" then k else s
  | none => k

/-- `HttpClient.normalizeHeaderNames` (source lines 341-356): rebuild
the header object, key by key in insertion order, under the adjusted
header names. -/
def normalizeHeaderNames (headers : HeaderMap) (rawHeaders : List String) :
    HeaderMap :=
  headers.foldl (fun res kv => objSet res (adjustName rawHeaders kv.1) kv.2) []

/-- Modelled from the spec: `getContentType` (from `utils/misc`, not
among the provided sources) returns the value of the `content-type`
header (header lookup is case-insensitive). -/
def getContentType (hs : HeaderMap) : Option String :=
  getHeader hs "content-type"

/-- Modelled from the spec: the `essence` of `MimeUtility.parse` (from
`utils/mimeUtility`, not among the provided sources) is "the top-level
media type of a `content-type` header with charset and other parameters
stripped", i.e. the part before the first `;`. -/
def mimeEssence (contentType : String) : String :=
  String.mk ((chSplit ';' contentType.data).headD [])

/-- `HttpResponse.essence` (source lines 26-30): `undefined` unless the
`content-type` header is present and truthy. -/
def essenceOfHeaders (hs : HeaderMap) : Option String :=
  match getContentType hs with
  | none => none
  | some ct => if ct = "" then none else some (mimeEssence ct)

/-- When `HttpClient.send` resolves its promise (source lines 137-143),
as an index into the event sequence of one response with `numChunks`
data events: the data events happen at indices `1..numChunks`, the
`end` event at index `numChunks + 1`, and index `0` is the moment the
`response` (metadata) handler runs.  The handler resolves at index `0`
when the essence of the normalized response headers equals
`text/event-stream`, and otherwise resolves in the `end` handler. -/
def sendResolveIndex (responseHeaders : HeaderMap) (rawHeaders : List String)
    (numChunks : Nat) : Nat :=
  if essenceOfHeaders (normalizeHeaderNames responseHeaders rawHeaders)
      = some "text/event-stream" then 0
  else numChunks + 1

/-- The characters of a URL after the first `://`, or `[]` when the URL
has no scheme separator (models node's `url.parse` on the
`scheme://host[:port][/path]` shapes the pipeline receives). -/
def dropScheme : List Char → List Char
  | ':' :: '/' :: '/' :: rest => rest
  | _ :: rest => dropScheme rest
  | [] => []

/-- The authority part (up to the first `/`) of a URL. -/
def urlAuthority (u : String) : List Char :=
  (dropScheme u.data).takeWhile (fun c => c ≠ '/')

/-- `url.parse(requestUrl).hostname`, lower-cased as on source line 277. -/
def urlHostname (u : String) : String :=
  jsToLower (String.mk ((chSplit ':' (urlAuthority u)).headD []))

/-- `url.parse(requestUrl).port`; node reports no port (`null`) when the
authority has no `:` and JavaScript also treats an empty port string as
falsy, so both become `none`. -/
def urlPort (u : String) : Option String :=
  match (chSplit ':' (urlAuthority u)).get? 1 with
  | some [] => none
  | some p => some (String.mk p)
  | none => none

/-- `HttpClient.ignoreProxy` (source lines 271-298). -/
def ignoreProxy (requestUrl : String) (excludeHostsForProxy : List String) :
    Bool :=
  if excludeHostsForProxy.length == 0 then false
  else
    let hostName := urlHostname requestUrl
    let port := urlPort requestUrl
    let excludeHostsProxyList := (excludeHostsForProxy.map jsToLower).dedup
    excludeHostsProxyList.any (fun eh =>
      let urlParts := chSplit ':' eh.data
      match port with
      | none =>
        urlParts.length == 1 && String.mk (urlParts.headD []) == hostName
      | some p =>
        let ph := String.mk (urlParts.headD [])
        let pp := (urlParts.get? 1).map String.mk
        ph == hostName &&
          (match pp with
           | none => true
           | some q => q == "" || q == p))

theorem str_append_empty (s : String) : s ++ "" = s := by
  cases s with
  | mk l => exact congrArg String.mk (List.append_nil l)

/-- C1: the claim says that after each data chunk
`httpResponse.bodyBuffer` equals the concatenation of all chunks
received so far.  The code violates this: the `data` handler computes
`Buffer.concat([bodyBuffer, chunk])` with the closure-captured local
`bodyBuffer`, which stays `Buffer.alloc(0)` forever, so after the
chunks `[0x61]` and `[0x62]` the buffer holds only the last chunk
`[0x62]` instead of `[0x61, 0x62]`. -/
theorem bodyBuffer_keeps_only_last_chunk :
    (processChunks utf8DecodeStr false [[0x61], [0x62]]).httpBodyBuffer = [0x62]
    ∧ (processChunks utf8DecodeStr false [[0x61], [0x62]]).httpBodyBuffer
        ≠ [0x61] ++ [0x62] := by
  constructor
  · rfl
  · decide

/-- C2: the header byte size recorded on the `response` event equals
the sum of the byte lengths of all raw header names and values plus
half the length of the raw header list (which is the number of
name/value pairs, since the raw list alternates names and values). -/
theorem headersSize_sum_plus_half_raw_count :
    ∀ hs : List (List Nat × List Nat),
      headersSizeOf (flattenPairs hs)
          = (hs.map (fun p => p.1.length + p.2.length)).sum
              + (flattenPairs hs).length / 2
        ∧ (flattenPairs hs).length / 2 = hs.length := by
  intro hs
  induction hs with
  | nil => simp [headersSizeOf, flattenPairs]
  | cons p rest ih =>
    obtain ⟨ih1, ih2⟩ := ih
    simp only [headersSizeOf, flattenPairs, List.foldr_cons, List.map_cons,
      List.sum_cons, List.length_cons] at *
    omega

/-- C6: `send` resolves its promise strictly before the `end` event
fires exactly when the essence of the (case-normalized) response
headers' content type is `text/event-stream`; in every other case it
resolves at the `end` event (index `numChunks + 1`), as the two
concrete content types illustrate. -/
theorem sendResolve_early_iff_event_stream :
    (∀ hs raw n, sendResolveIndex hs raw n < n + 1 ↔
        essenceOfHeaders (normalizeHeaderNames hs raw) = some "text/event-stream")
    ∧ (∀ hs raw n, sendResolveIndex hs raw n = 0
        ∨ sendResolveIndex hs raw n = n + 1)
    ∧ sendResolveIndex [("content-type", "text/event-stream")] ["Content-Type"] 3 = 0
    ∧ sendResolveIndex [("content-type", "application/json")] ["Content-Type"] 3 = 4 := by
  refine ⟨?_, ?_, by decide, by decide⟩
  · intro hs raw n
    unfold sendResolveIndex
    split
    · simp only [Nat.zero_lt_succ, true_iff]
      assumption
    · simp only [Nat.lt_irrefl, false_iff]
      assumption
  · intro hs raw n
    unfold sendResolveIndex
    split
    · exact Or.inl rfl
    · exact Or.inr rfl

theorem foldl_dataStep_bodySize (dec : List Nat → String) (f : Bool)
    (lb : List Nat) (ds : List (List Nat)) :
    ∀ st : SendState,
      (ds.foldl (dataStep dec f lb) st).bodySize
        = st.bodySize + (ds.map List.length).sum := by
  induction ds with
  | nil => intro st; simp
  | cons c cs ih =>
    intro st
    simp only [List.foldl_cons, List.map_cons, List.sum_cons, ih, dataStep]
    omega

theorem foldl_dataStep_sizeField (dec : List Nat → String) (f : Bool)
    (lb : List Nat) (ds : List (List Nat)) :
    ∀ st : SendState, st.httpBodySizeInBytes = st.bodySize →
      (ds.foldl (dataStep dec f lb) st).httpBodySizeInBytes
        = (ds.foldl (dataStep dec f lb) st).bodySize := by
  induction ds with
  | nil => intro st h; simpa using h
  | cons c cs ih =>
    intro st _
    simp only [List.foldl_cons]
    exact ih _ rfl

theorem foldl_dataStep_body_append (dec : List Nat → String) (f : Bool)
    (lb : List Nat) (ds : List (List Nat)) :
    ∀ st : SendState, ∃ t : String,
      (ds.foldl (dataStep dec f lb) st).httpBody = st.httpBody ++ t := by
  induction ds with
  | nil => intro st; exact ⟨"", (str_append_empty _).symm⟩
  | cons c cs ih =>
    intro st
    obtain ⟨t, ht⟩ := ih (dataStep dec f lb st c)
    refine ⟨(if f then decodeEscapedUnicodeCharacters (dec c) else dec c) ++ t, ?_⟩
    rw [List.foldl_cons, ht]
    show (dataStep dec f lb st c).httpBody ++ t = _
    rw [show (dataStep dec f lb st c).httpBody
          = st.httpBody ++ (if f then decodeEscapedUnicodeCharacters (dec c) else dec c)
        from rfl]
    exact String.append_assoc _ _ _

/-- C8: across the data events of one response the decoded body is
append-only and the byte counter always equals the cumulative byte
total of the chunks processed so far (hence monotone under extension of
the chunk sequence); the utf8 example `"caf"` then the bytes of `"é"`
accumulates to `"café"` with counters 3 and then 5. -/
theorem body_append_only_and_byte_counter_cumulative :
    (∀ (dec : List Nat → String) (f : Bool) (cs ds : List (List Nat)),
        ∃ t : String, (processChunks dec f (cs ++ ds)).httpBody
            = (processChunks dec f cs).httpBody ++ t)
    ∧ (∀ (dec : List Nat → String) (f : Bool) (cs : List (List Nat)),
        (processChunks dec f cs).httpBodySizeInBytes = (cs.map List.length).sum)
    ∧ (∀ (dec : List Nat → String) (f : Bool) (cs ds : List (List Nat)),
        (processChunks dec f cs).httpBodySizeInBytes
          ≤ (processChunks dec f (cs ++ ds)).httpBodySizeInBytes)
    ∧ (processChunks utf8DecodeStr false [[0x63, 0x61, 0x66]]).httpBody = "caf"
    ∧ (processChunks utf8DecodeStr false [[0x63, 0x61, 0x66]]).httpBodySizeInBytes = 3
    ∧ (processChunks utf8DecodeStr false
          [[0x63, 0x61, 0x66], [0xC3, 0xA9]]).httpBody = "café"
    ∧ (processChunks utf8DecodeStr false
          [[0x63, 0x61, 0x66], [0xC3, 0xA9]]).httpBodySizeInBytes = 5 := by
  have hsize : ∀ (dec : List Nat → String) (f : Bool) (cs : List (List Nat)),
      (processChunks dec f cs).httpBodySizeInBytes = (cs.map List.length).sum := by
    intro dec f cs
    unfold processChunks
    rw [foldl_dataStep_sizeField dec f [] cs initSendState rfl,
      foldl_dataStep_bodySize]
    show 0 + _ = _
    exact Nat.zero_add _
  refine ⟨?_, hsize, ?_, by decide, by decide, by decide, by decide⟩
  · intro dec f cs ds
    unfold processChunks
    rw [List.foldl_append]
    exact foldl_dataStep_body_append dec f [] ds _
  · intro dec f cs ds
    rw [hsize, hsize, List.map_append, List.sum_append]
    exact Nat.le_add_right _ _

/-- C4: `ignoreProxy` returns true exactly when some exclude-list entry
(compared lower-cased) matches the target: for a URL with no explicit
port the entry must be a bare hostname (no `:`) equal to the target
hostname; for a URL with an explicit port the entry's host part must
equal the target hostname and the entry must carry no port (absent or
empty) or exactly the target's port.  With an empty exclude list the
result is false, and the three concrete examples behave as stated. -/
theorem ignoreProxy_matches_exclude_entries :
    (∀ (u : String) (l : List String),
      ignoreProxy u l = true ↔
        ∃ eh ∈ l,
          match urlPort u with
          | none =>
              (chSplit ':' (jsToLower eh).data).length = 1 ∧
              String.mk ((chSplit ':' (jsToLower eh).data).headD []) = urlHostname u
          | some p =>
              String.mk ((chSplit ':' (jsToLower eh).data).headD []) = urlHostname u ∧
              (((chSplit ':' (jsToLower eh).data).get? 1).map String.mk = none ∨
               ((chSplit ':' (jsToLower eh).data).get? 1).map String.mk = some "" ∨
               ((chSplit ':' (jsToLower eh).data).get? 1).map String.mk = some p))
    ∧ ignoreProxy "http://internal.example.com/x" ["internal.example.com"] = true
    ∧ ignoreProxy "http://internal.example.com:8080/x" ["internal.example.com:9090"] = false
    ∧ ignoreProxy "http://a.com" [] = false := by
  refine ⟨?_, by decide, by decide, by decide⟩
  intro u l
  unfold ignoreProxy
  by_cases hl : l = []
  · subst hl
    simp
  · rw [if_neg (by simpa using hl), List.any_eq_true]
    constructor
    · rintro ⟨x, hx, hfx⟩
      rw [List.mem_dedup, List.mem_map] at hx
      obtain ⟨eh, heh, rfl⟩ := hx
      refine ⟨eh, heh, ?_⟩
      simp only [] at hfx
      revert hfx
      rcases hport : urlPort u with _ | p
      · intro hfx
        simpa using hfx
      · generalize ((chSplit ':' (jsToLower eh).data).get? 1).map String.mk = pp
        rcases pp with _ | q
        · intro hfx
          rw [Bool.and_eq_true, beq_iff_eq] at hfx
          exact ⟨hfx.1, Or.inl rfl⟩
        · intro hfx
          rw [Bool.and_eq_true, beq_iff_eq] at hfx
          obtain ⟨h1, h2⟩ := hfx
          simp only [Bool.or_eq_true, beq_iff_eq] at h2
          rcases h2 with h2 | h2
          · exact ⟨h1, Or.inr (Or.inl (by rw [h2]))⟩
          · exact ⟨h1, Or.inr (Or.inr (by rw [h2]))⟩
    · rintro ⟨eh, heh, hprop⟩
      refine ⟨jsToLower eh, ?_, ?_⟩
      · rw [List.mem_dedup, List.mem_map]
        exact ⟨eh, heh, rfl⟩
      · simp only []
        revert hprop
        rcases hport : urlPort u with _ | p
        · intro hprop
          simpa using hprop
        · generalize ((chSplit ':' (jsToLower eh).data).get? 1).map String.mk = pp
          rcases pp with _ | q
          · intro hprop
            rw [Bool.and_eq_true]
            exact ⟨beq_iff_eq.mpr hprop.1, rfl⟩
          · rintro ⟨h1, h2 | h2 | h2⟩
            · cases h2
            · obtain rfl := Option.some.inj h2
              rw [Bool.and_eq_true]
              exact ⟨beq_iff_eq.mpr h1, rfl⟩
            · obtain rfl := Option.some.inj h2
              rw [Bool.and_eq_true]
              refine ⟨beq_iff_eq.mpr h1, ?_⟩
              simp

theorem find?_buildDic_foldl (raw : List String) :
    ∀ (acc : List (String × String)) (k : String),
      (raw.foldl (fun prev cur =>
          if prev.any (fun p => p.1 == jsToLower cur) then prev
          else prev ++ [(jsToLower cur, cur)]) acc).find? (fun p => p.1 == k)
        = (acc.find? (fun p => p.1 == k)).or
            ((raw.find? (fun r => jsToLower r == k)).map (fun r => (jsToLower r, r))) := by
  induction raw with
  | nil =>
    intro acc k
    cases h : acc.find? (fun p => p.1 == k) <;> simp [h]
  | cons r rs ih =>
    intro acc k
    rw [List.foldl_cons]
    by_cases hany : (acc.any (fun p => p.1 == jsToLower r)) = true
    · rw [if_pos hany, ih]
      cases hd : acc.find? (fun p => p.1 == k) with
      | some e => simp
      | none =>
        simp only [Option.or]
        have hne : (jsToLower r == k) = false := by
          cases hbe : (jsToLower r == k)
          · rfl
          · exfalso
            rw [beq_iff_eq] at hbe
            rw [List.any_eq_true] at hany
            obtain ⟨q, hq, hq1⟩ := hany
            rw [beq_iff_eq] at hq1
            rw [List.find?_eq_none] at hd
            exact hd q hq (by rw [beq_iff_eq, hq1, hbe])
        rw [@List.find?_cons_of_neg String (fun r => jsToLower r == k) r rs
          (by simp [hne])]
    · rw [if_neg hany, ih, List.find?_append]
      cases hd : acc.find? (fun p => p.1 == k) with
      | some e => simp
      | none =>
        simp only [Option.or]
        by_cases hpr : (jsToLower r == k) = true
        · rw [@List.find?_cons_of_pos String (fun r => jsToLower r == k) r rs hpr]
          simp [List.find?, hpr]
        · rw [@List.find?_cons_of_neg String (fun r => jsToLower r == k) r rs
            (by simpa using hpr)]
          simp [List.find?, hpr]

theorem dicGet_buildDic (raw : List String) (k : String) :
    dicGet (buildDic raw) k = raw.find? (fun r => jsToLower r == k) := by
  unfold dicGet buildDic
  rw [find?_buildDic_foldl raw [] k]
  cases h : raw.find? (fun r => jsToLower r == k) <;> simp [Option.or]

/-- C9: the adjusted name of a header key is the first-seen raw header
name whose lower-cased form equals the key (`List.find?` takes the
first match, so ties keep the first occurrence), and the key itself
when no raw name matches; on the example headers the keys
`content-type`/`x-foo` are rewritten to `Content-Type`/`X-Foo` with
their values preserved. -/
theorem normalizeHeaderNames_first_seen :
    (∀ (rawHeaders : List String) (k : String),
        adjustName rawHeaders k
          = (rawHeaders.find? (fun r => jsToLower r == k)).getD k)
    ∧ normalizeHeaderNames [("content-type", "a"), ("x-foo", "b")]
        ["Content-Type", "X-Foo"]
        = [("Content-Type", "a"), ("X-Foo", "b")] := by
  refine ⟨?_, by decide⟩
  intro raw k
  unfold adjustName
  rw [dicGet_buildDic]
  cases h : raw.find? (fun r => jsToLower r == k) with
  | none => rfl
  | some r =>
    by_cases hr : r = ""
    · subst hr
      have hk := List.find?_some h
      rw [beq_iff_eq] at hk
      show (if ("" : String) = "" then k else "") = (some "").getD k
      rw [if_pos rfl]
      exact hk.symm
    · show (if r = "" then k else r) = (some r).getD k
      rw [if_neg hr]
      rfl

/-- C5: whenever `prepareOptions` returns, the request's original
header object (heap index 0) is exactly the mapping that was passed in:
every auth rewrite went through `options.headersRef`, which points at
the shallow clone (heap index 1). -/
theorem prepare_preserves_caller_headers :
    ∀ (orig : HeaderMap) (heap : HeaderHeap) (opts : OptionsModel),
      prepareOptionsModel orig = some (heap, opts) → heap.getD 0 [] = orig := by
  intro orig heap opts h
  unfold prepareOptionsModel applyAuth at h
  repeat' split at h
  all_goals
    first
      | exact Option.noConfusion h
      | (injection h with h3
         injection h3 with h4 h5
         subst h4
         rfl)

theorem prepare_preserves_caller_headers_witness :
    ([[("Authorization", "Basic alice:secret")], ([] : HeaderMap)] : HeaderHeap).getD 0 []
      = [("Authorization", "Basic alice:secret")] :=
  prepare_preserves_caller_headers [("Authorization", "Basic alice:secret")]
    [[("Authorization", "Basic alice:secret")], []]
    { headersRef := 1, username := some "alice", password := some "secret",
      beforeRequestHooks := [], afterResponseHooks := [] } rfl

/-- C3, counterexample to the claim as stated: for the two-token basic
value `Basic alice:se:cret` the code destructures `user.split(':')`
into its first two elements, so the password is `se` — not the entire
remainder `se:cret` after the first colon that the claim asserts. -/
theorem basic_colon_password_not_remainder :
    ((prepareOptionsModel [("Authorization", "Basic alice:se:cret")]).map
        (fun r => r.2.password)) = some (some "se")
    ∧ ((prepareOptionsModel [("Authorization", "Basic alice:se:cret")]).map
        (fun r => r.2.password)) ≠ some (some "se:cret") := by
  constructor
  · rfl
  · decide

/-- C3 as amended: for a two-token basic authorization whose user token
contains a colon, the username is the part before the first colon and
the password is the second colon-separated segment (the part between
the first and second colon; the whole remainder only when the token has
a single colon); the `Authorization` header is removed from the cloned
headers (heap index 1) and the original (heap index 0) is untouched. -/
theorem basic_colon_splits_user_token :
    ∀ (orig : HeaderMap) (v s u : String),
      getHeader orig "Authorization" = some v →
      splitWs v = [s, u] →
      jsToLower s = "basic" →
      u.data.contains ':' = true →
      prepareOptionsModel orig
        = some ([orig, removeHeader orig "Authorization"],
            { headersRef := 1,
              username := some (String.mk ((chSplit ':' u.data).headD [])),
              password := ((chSplit ':' u.data).get? 1).map String.mk,
              beforeRequestHooks := [], afterResponseHooks := [] }) := by
  intro orig v s u hget hsplit hscheme hcolon
  have hv : v ≠ "" := by
    intro he
    rw [he] at hsplit
    simp [splitWs, splitWsGo] at hsplit
  unfold prepareOptionsModel applyAuth
  simp only [List.getD_cons_succ, List.getD_cons_zero, hget, if_neg hv, hsplit,
    List.length_nil, heapRemoveAuth, hscheme, hcolon]
  simp [List.set]

theorem basic_colon_splits_user_token_witness :
    prepareOptionsModel [("Authorization", "Basic alice:secret")]
      = some ([[("Authorization", "Basic alice:secret")], []],
          { headersRef := 1, username := some "alice", password := some "secret",
            beforeRequestHooks := [], afterResponseHooks := [] }) :=
  basic_colon_splits_user_token [("Authorization", "Basic alice:secret")]
    "Basic alice:secret" "Basic" "alice:secret" rfl rfl rfl rfl

/-- C7: for a basic authorization with at least three whitespace tokens
the username is the second token, the password is the remaining tokens
rejoined with single spaces, and the `Authorization` header is removed
from the cloned headers while the original stays untouched. -/
theorem basic_multi_token_password_rejoined :
    ∀ (orig : HeaderMap) (v s u a : String) (rest : List String),
      getHeader orig "Authorization" = some v →
      splitWs v = s :: u :: a :: rest →
      jsToLower s = "basic" →
      prepareOptionsModel orig
        = some ([orig, removeHeader orig "Authorization"],
            { headersRef := 1,
              username := some u,
              password := some (joinSp (a :: rest)),
              beforeRequestHooks := [], afterResponseHooks := [] }) := by
  intro orig v s u a rest hget hsplit hscheme
  have hv : v ≠ "" := by
    intro he
    rw [he] at hsplit
    simp [splitWs, splitWsGo] at hsplit
  unfold prepareOptionsModel applyAuth
  simp only [List.getD_cons_succ, List.getD_cons_zero, hget, if_neg hv, hsplit,
    List.length_cons, heapRemoveAuth, hscheme]
  simp [List.set]

theorem basic_multi_token_password_rejoined_witness :
    prepareOptionsModel [("Authorization", "Basic alice pass word")]
      = some ([[("Authorization", "Basic alice pass word")], []],
          { headersRef := 1, username := some "alice",
            password := some "pass word",
            beforeRequestHooks := [], afterResponseHooks := [] }) :=
  basic_multi_token_password_rejoined [("Authorization", "Basic alice pass word")]
    "Basic alice pass word" "Basic" "alice" "pass" ["word"] rfl rfl rfl

/-- C10: a `digest`, `aws` or `cognito` authorization value with at
most two whitespace tokens takes no auth action at all: the clone keeps
its `Authorization` header (the whole heap is unchanged), no hook is
registered and no transport credentials are set. -/
theorem nonbasic_short_auth_is_noop :
    ∀ (orig : HeaderMap) (v s u : String),
      getHeader orig "Authorization" = some v →
      (splitWs v = [s] ∨ splitWs v = [s, u]) →
      (jsToLower s = "digest" ∨ jsToLower s = "aws" ∨ jsToLower s = "cognito") →
      prepareOptionsModel orig
        = some ([orig, orig],
            { headersRef := 1, username := none, password := none,
              beforeRequestHooks := [], afterResponseHooks := [] }) := by
  intro orig v s u hget hsplit hscheme
  have hv : v ≠ "" := by
    intro he
    rw [he] at hsplit
    rcases hsplit with h2 | h2
    · simp [splitWs, splitWsGo] at h2
      rcases hscheme with h3 | h3 | h3 <;> rw [← h2] at h3 <;> simp [jsToLower] at h3
    · simp [splitWs, splitWsGo] at h2
  have hnotbasic : (jsToLower s == "basic") = false := by
    rcases hscheme with h3 | h3 | h3 <;> rw [h3] <;> decide
  unfold prepareOptionsModel applyAuth
  rcases hsplit with h2 | h2 <;>
    simp only [List.getD_cons_succ, List.getD_cons_zero, hget, if_neg hv, h2,
      List.length_nil, hnotbasic] <;>
    simp

theorem nonbasic_short_auth_is_noop_witness :
    prepareOptionsModel [("Authorization", "Digest user")]
      = some ([[("Authorization", "Digest user")], [("Authorization", "Digest user")]],
          { headersRef := 1, username := none, password := none,
            beforeRequestHooks := [], afterResponseHooks := [] }) :=
  nonbasic_short_auth_is_noop [("Authorization", "Digest user")]
    "Digest user" "Digest" "user" rfl (Or.inr rfl) (Or.inl rfl)

end RestClient
